import Mathlib

/-!
Verification of the NAS file picker (`nas_pick_download.py`).

The program is shallowly embedded: each Python function is translated to a
Lean definition over `String` and `List Char`.

* `pathlib.PurePosixPath` operations (`Path(a) / b`, `Path(a).parent`,
  `str(Path(s))`) are modelled by `pyJoin`, `pyParent`, `pyNorm`; the rare
  POSIX special case of a path whose root is exactly two leading slashes is
  not modelled (such a root never arises from the default configuration).
* `str.splitlines`, `str.strip` and string truthiness are modelled by
  `pySplitlines`, `pyStrip`, `isBlankLine`.
* `shlex.quote` is modelled by `shlexQuote`, and the word splitting the
  remote POSIX shell applies to the command string it receives is modelled
  by `shellFields` (whitespace splitting with single- and double-quote
  grouping; no expansion).
* The body of `main`'s interactive loop (the navigation state machine) is
  `navStep`; the transfer dispatch (`download_rsync`, `download_scp`,
  `download`) is modelled as the list of external actions it performs.
-/

namespace NasPick

/-- Python `str.isspace` test for a single character (the character classes
`str.strip()` strips and blank-line filtering uses). -/
def isPySpace (c : Char) : Bool :=
  decide (c.toNat = 32) || decide (9 ≤ c.toNat ∧ c.toNat ≤ 13) ||
  decide (28 ≤ c.toNat ∧ c.toNat ≤ 31) || decide (c.toNat = 133) ||
  decide (c.toNat = 160) || decide (c.toNat = 0x1680) ||
  decide (0x2000 ≤ c.toNat ∧ c.toNat ≤ 0x200a) || decide (c.toNat = 0x2028) ||
  decide (c.toNat = 0x2029) || decide (c.toNat = 0x202f) ||
  decide (c.toNat = 0x205f) || decide (c.toNat = 0x3000)

/-- The line-boundary characters of Python `str.splitlines`. -/
def isLineBreak (c : Char) : Bool :=
  decide (c.toNat = 10) || decide (c.toNat = 13) || decide (c.toNat = 11) ||
  decide (c.toNat = 12) || decide (c.toNat = 28) || decide (c.toNat = 29) ||
  decide (c.toNat = 30) || decide (c.toNat = 133) ||
  decide (c.toNat = 0x2028) || decide (c.toNat = 0x2029)

/-- Worker for `pySplitlines`; `cur` is the current line, reversed. -/
def splitlinesAux : List Char → List Char → List String
  | [], cur => if cur = [] then [] else [String.mk cur.reverse]
  | '\r' :: '\n' :: rest, cur => String.mk cur.reverse :: splitlinesAux rest []
  | c :: rest, cur =>
    if isLineBreak c then String.mk cur.reverse :: splitlinesAux rest []
    else splitlinesAux rest (c :: cur)

/-- Python `s.splitlines()`. -/
def pySplitlines (s : String) : List String :=
  splitlinesAux s.data []

/-- Python `s.strip()`: remove leading and trailing whitespace. -/
def pyStrip (s : String) : String :=
  String.mk (((s.data.dropWhile isPySpace).reverse.dropWhile isPySpace).reverse)

/-- A line is blank (falsy after `strip`) iff all of its characters are
whitespace; `list_remote` drops exactly these lines (`if x.strip()`). -/
def isBlankLine (s : String) : Bool :=
  s.data.all isPySpace

/-- Python `s.endswith("/")`: the last character is the path separator. -/
def endsWithSlash (s : String) : Bool :=
  s.data.getLast? = some '/'

/-! ### `pathlib.PurePosixPath` model -/

/-- Split a character list at every `'/'` (the pieces contain no `'/'`). -/
def splitOnSlash : List Char → List (List Char)
  | [] => [[]]
  | c :: cs =>
    if c = '/' then [] :: splitOnSlash cs
    else
      match splitOnSlash cs with
      | [] => [[c]]
      | p :: ps => (c :: p) :: ps

/-- Join character lists with a single `'/'` between consecutive pieces. -/
def joinSlash : List (List Char) → List Char
  | [] => []
  | [p] => p
  | p :: q :: ps => p ++ '/' :: joinSlash (q :: ps)

/-- A piece survives `PurePosixPath` parsing iff it is neither empty nor
the single dot. -/
def keepPart (p : List Char) : Bool :=
  !(p == [] || p == ['.'])

/-- The `parts` of `PurePosixPath(s)` (excluding the root). -/
def pyPartsL (l : List Char) : List (List Char) :=
  (splitOnSlash l).filter keepPart

/-- Whether `PurePosixPath(s)` is absolute (leading `'/'`). -/
def pyIsAbsL : List Char → Bool
  | [] => false
  | c :: _ => c = '/'

/-- `str` of a `PurePosixPath` given its root flag and parts. -/
def pyReprL (isAbs : Bool) (parts : List (List Char)) : List Char :=
  if isAbs then '/' :: joinSlash parts
  else if parts = [] then ['.'] else joinSlash parts

/-- Python `str(PurePosixPath(s))`. -/
def pyNorm (s : String) : String :=
  String.mk (pyReprL (pyIsAbsL s.data) (pyPartsL s.data))

/-- Python `str(PurePosixPath(a) / b)` (used as `str(Path(remote_dir) / x)`
in `main`): an absolute `b` replaces `a`, otherwise the parts concatenate. -/
def pyJoin (a b : String) : String :=
  if pyIsAbsL b.data then String.mk (pyReprL true (pyPartsL b.data))
  else String.mk (pyReprL (pyIsAbsL a.data) (pyPartsL a.data ++ pyPartsL b.data))

/-- Python `str(PurePosixPath(a).parent)` (used as
`str(Path(remote_dir).parent)` in `main`). -/
def pyParent (a : String) : String :=
  String.mk (pyReprL (pyIsAbsL a.data) (pyPartsL a.data).dropLast)

/-! ### `list_remote` -/

/-- The character class `shlex.quote` leaves unquoted: ASCII letters and
digits, underscore, at, percent, plus, equals, colon, comma, dot, slash
and hyphen. -/
def shlexSafeChar (c : Char) : Bool :=
  decide (65 ≤ c.toNat ∧ c.toNat ≤ 90) || decide (97 ≤ c.toNat ∧ c.toNat ≤ 122) ||
  decide (48 ≤ c.toNat ∧ c.toNat ≤ 57) || decide (c.toNat = 95) || decide (c.toNat = 64) ||
  decide (c.toNat = 37) || decide (c.toNat = 43) || decide (c.toNat = 61) ||
  decide (c.toNat = 58) || decide (c.toNat = 44) || decide (c.toNat = 46) ||
  decide (c.toNat = 47) || decide (c.toNat = 45)

/-- Python `shlex.quote(s)`: empty strings and strings with unsafe
characters are wrapped in single quotes, with every embedded single quote
replaced by the five characters quote, double-quote, quote, double-quote,
quote. -/
def shlexQuote (s : String) : String :=
  if s = "" then String.mk [Char.ofNat 39, Char.ofNat 39]
  else if s.data.all shlexSafeChar then s
  else
    String.mk (Char.ofNat 39 ::
      (s.data.flatMap (fun c =>
        if c = Char.ofNat 39 then
          [Char.ofNat 39, Char.ofNat 34, Char.ofNat 39, Char.ofNat 34, Char.ofNat 39]
        else [c])) ++ [Char.ofNat 39])

/-- The command string `list_remote` interpolates the directory into and
hands (after one level of local-shell unquoting) to the remote shell:
`f"cd {remote_dir} && ls -1p"`. -/
def remoteListingShellCommand (remoteDir : String) : String :=
  "cd " ++ remoteDir ++ " && ls -1p"

/-- The full local command string built by `list_remote`:
`f"ssh {shlex.quote(nas_host)} {shlex.quote(f'cd {remote_dir} && ls -1p')}"`. -/
def listRemoteCmd (nasHost remoteDir : String) : String :=
  "ssh " ++ shlexQuote nasHost ++ " " ++ shlexQuote (remoteListingShellCommand remoteDir)

/-- Quoting state of the miniature POSIX shell reader. -/
inductive ShMode
  | norm
  | squote
  | dquote
deriving DecidableEq

/-- Miniature POSIX-shell field splitting: whitespace separates words,
single and double quotes group characters; no expansions are modelled.
`cur` is the current word reversed; `started` records whether a word is in
progress (so quotes can produce empty words). -/
def shSplit : List Char → ShMode → List Char → Bool → List (List Char)
  | [], _, cur, started => if started then [cur.reverse] else []
  | c :: rest, ShMode.norm, cur, started =>
    if decide (c.toNat = 32) || decide (c.toNat = 9) then
      (if started then [cur.reverse] else []) ++ shSplit rest ShMode.norm [] false
    else if decide (c.toNat = 39) then shSplit rest ShMode.squote cur true
    else if decide (c.toNat = 34) then shSplit rest ShMode.dquote cur true
    else shSplit rest ShMode.norm (c :: cur) true
  | c :: rest, ShMode.squote, cur, _ =>
    if decide (c.toNat = 39) then shSplit rest ShMode.norm cur true
    else shSplit rest ShMode.squote (c :: cur) true
  | c :: rest, ShMode.dquote, cur, _ =>
    if decide (c.toNat = 34) then shSplit rest ShMode.norm cur true
    else shSplit rest ShMode.dquote (c :: cur) true

/-- The words a POSIX shell sees in `s` (modelled split). -/
def shellFields (s : String) : List String :=
  (shSplit s.data ShMode.norm [] false).map String.mk

/-- The line filtering of `list_remote`:
`[x for x in out.splitlines() if x.strip()]`. -/
def listRemoteLines (out : String) : List String :=
  (pySplitlines out).filter (fun x => !(isBlankLine x))

/-! ### Entries and the picker adapter -/

/-- The kind of a listed remote entry. -/
inductive Kind
  | File
  | Directory
deriving DecidableEq

/-- A parsed remote entry (the spec's `RemoteEntry`). -/
structure RemoteEntry where
  name : String
  kind : Kind
deriving DecidableEq

/-- The trailing-separator convention applied to one raw `ls -1p` line
(`is_dir = choice.endswith("/")`, name `choice[:-1]` for directories). -/
def parseEntry (line : String) : RemoteEntry :=
  if endsWithSlash line then ⟨String.mk line.data.dropLast, Kind.Directory⟩
  else ⟨line, Kind.File⟩

/-- The entries the lister produces from raw remote output. -/
def listerEntries (out : String) : List RemoteEntry :=
  (listRemoteLines out).map parseEntry

/-- Rendering of an entry back to a candidate line: the name with a
trailing separator appended iff the entry is a directory. -/
def renderEntry (e : RemoteEntry) : String :=
  e.name ++ (if e.kind = Kind.Directory then "/" else "")

/-- The candidate list sent to fzf:
`lines = ["../\n"] + [x + "\n" for x in items]`. -/
def candidateLines (items : List String) : List String :=
  "../\n" :: items.map (fun x => x ++ "\n")

/-- Decoding of the fzf output lines into `(key, selection)`
(`pick_with_fzf`, after `p.stdout.splitlines()`). -/
def pickDecodeLines : List String → String × String
  | [] => ("", "")
  | [x] => ("", pyStrip x)
  | k :: s :: _ => (pyStrip k, pyStrip s)

/-- `pick_with_fzf` as a function of the raw stdout of fzf. -/
def pick_with_fzf_decode (stdout : String) : String × String :=
  pickDecodeLines (pySplitlines stdout)

/-! ### Transfer dispatch -/

/-- An external effect of the transfer dispatcher: create the local
destination directory, or invoke an external command given as an argument
vector. -/
inductive Action
  | makedirs (dir : String)
  | callArgs (cmd : List String)
deriving DecidableEq

/-- `download_rsync`: `os.makedirs(local_dest, exist_ok=True)` then
`rsync -avP --protect-args host:path local_dest/`. -/
def download_rsync (nasHost remotePath localDest : String) : List Action :=
  [Action.makedirs localDest,
   Action.callArgs ["rsync", "-avP", "--protect-args",
     nasHost ++ ":" ++ remotePath, localDest ++ "/"]]

/-- `download_scp`: `os.makedirs(local_dest, exist_ok=True)` then
`scp [-r] -p host:path local_dest/`. -/
def download_scp (nasHost remotePath localDest : String) (isDir : Bool) : List Action :=
  [Action.makedirs localDest,
   Action.callArgs (["scp"] ++ (if isDir then ["-r"] else []) ++
     ["-p", nasHost ++ ":" ++ remotePath, localDest ++ "/"])]

/-- `download`: strategy dispatch on `use_rsync`. -/
def download (nasHost : String) (useRsync : Bool) (remotePath localDest : String)
    (isDir : Bool) : List Action :=
  if useRsync then download_rsync nasHost remotePath localDest
  else download_scp nasHost remotePath localDest isDir

/-! ### The navigation state machine (`main`'s loop body) -/

/-- The terminal outcomes of a browse session. -/
inductive Outcome
  | noSelection
  | fileDownloadRequested (path : String)
  | directoryDownloadRequested (path : String)
deriving DecidableEq

/-- The result of one loop iteration: keep browsing in a new current
directory, or terminate with the printed messages, the outcome and the
process exit code. -/
inductive NavResult
  | browsing (dir : String)
  | terminated (msgs : List String) (outcome : Outcome) (exitCode : Nat)
deriving DecidableEq

/-- One iteration of `main`'s loop after the pick, as a function of the
current directory and the decoded `(key, choice)`:

* falsy `choice` → print the cancellation notice, return `0`;
* `choice == "../"` → ascend unless already at `"/"`, keep browsing;
* `choice` ends with `"/"` → with key `ctrl-d` terminate with a directory
  download of `str(Path(remote_dir) / choice[:-1])`, else descend;
* otherwise terminate with a file download of
  `str(Path(remote_dir) / choice)`. -/
def navStep (remoteDir key choice : String) : NavResult :=
  if choice = "" then
    NavResult.terminated ["No selection, exiting."] Outcome.noSelection 0
  else if choice = "../" then
    if remoteDir ≠ "/" then NavResult.browsing (pyParent remoteDir)
    else NavResult.browsing remoteDir
  else if endsWithSlash choice then
    let dirPath := pyJoin remoteDir (String.mk choice.data.dropLast)
    if key = "ctrl-d" then
      NavResult.terminated ["⬇ Downloading directory: " ++ dirPath, "✅ Done."]
        (Outcome.directoryDownloadRequested dirPath) 0
    else NavResult.browsing dirPath
  else
    NavResult.terminated ["⬇ Downloading file: " ++ pyJoin remoteDir choice, "✅ Done."]
      (Outcome.fileDownloadRequested (pyJoin remoteDir choice)) 0

/-- The browsing states reachable from a given remote root by iterating
`main`'s loop. -/
inductive Reachable (root : String) : String → Prop
  | start : Reachable root root
  | step {cur next : String} (key choice : String) :
      Reachable root cur → navStep cur key choice = NavResult.browsing next →
      Reachable root next

/-! ### Basic helper lemmas -/

theorem mk_data (s : String) : String.mk s.data = s := by
  cases s
  rfl

theorem data_mk (l : List Char) : (String.mk l).data = l := rfl

theorem data_append (a b : String) : (a ++ b).data = a.data ++ b.data := by
  cases a
  cases b
  rfl

theorem mk_inj {a b : List Char} (h : String.mk a = String.mk b) : a = b := by
  cases h
  rfl

theorem endsWithSlash_ne_empty {s : String} (h : endsWithSlash s = true) : s ≠ "" := by
  intro e
  subst e
  simp [endsWithSlash] at h

/-! ### Helper lemmas about the path model -/

theorem pyIsAbsL_reprL (ps : List (List Char)) : pyIsAbsL (pyReprL true ps) = true := by
  simp [pyReprL, pyIsAbsL]

theorem pyParent_abs {a : String} (h : pyIsAbsL a.data = true) :
    pyIsAbsL (pyParent a).data = true := by
  unfold pyParent
  rw [h, data_mk]
  exact pyIsAbsL_reprL _

theorem pyJoin_abs {a : String} (b : String) (h : pyIsAbsL a.data = true) :
    pyIsAbsL (pyJoin a b).data = true := by
  unfold pyJoin
  cases hb : pyIsAbsL b.data <;> simp [hb, h, data_mk, pyIsAbsL_reprL]

theorem navStep_browsing_cases {cur key choice next : String}
    (h : navStep cur key choice = NavResult.browsing next) :
    next = pyParent cur ∨ next = cur ∨ ∃ s, next = pyJoin cur s := by
  unfold navStep at h
  split_ifs at h <;> simp at h
  · exact Or.inl h.symm
  · exact Or.inr (Or.inl h.symm)
  · exact Or.inr (Or.inr ⟨_, h.symm⟩)

theorem navStep_abs {cur key choice next : String} (habs : pyIsAbsL cur.data = true)
    (h : navStep cur key choice = NavResult.browsing next) :
    pyIsAbsL next.data = true := by
  rcases navStep_browsing_cases h with h | h | ⟨s, h⟩ <;> subst h
  · exact pyParent_abs habs
  · exact habs
  · exact pyJoin_abs _ habs

/-! ### Easy claim groups: lister, picker adapter, dispatcher -/

theorem renderEntry_parseEntry (l : String) : renderEntry (parseEntry l) = l := by
  unfold parseEntry renderEntry
  by_cases h : endsWithSlash l = true
  · rw [if_pos h]
    simp only [if_pos rfl]
    have hne : l.data ≠ [] := by
      intro e
      simp [endsWithSlash, e] at h
    have hlast : l.data.getLast hne = '/' := by
      have h2 : l.data.getLast? = some '/' := by simpa [endsWithSlash] using h
      rw [List.getLast?_eq_getLast l.data hne] at h2
      exact Option.some.inj h2
    calc String.mk l.data.dropLast ++ "/"
        = String.mk (l.data.dropLast ++ ['/']) := by cases l; rfl
      _ = String.mk (l.data.dropLast ++ [l.data.getLast hne]) := by rw [hlast]
      _ = String.mk l.data := by rw [List.dropLast_append_getLast]
      _ = l := mk_data l
  · rw [if_neg h]
    simp only [parseEntry]
    have : (parseEntry l).kind = Kind.File := by
      unfold parseEntry
      rw [if_neg h]
    simp only [if_neg (by simp : ¬ (Kind.File = Kind.Directory))]
    cases l
    show String.mk (_ ++ []) = _
    rw [List.append_nil]

/-- Claim C4: `list_remote` discards blank lines and preserves the order of
the remaining raw listing lines, and the trailing-separator convention
parses each line to a `Directory` with the separator stripped from its
name, or to a `File`; the example output yields exactly `foo` (Directory),
`bar.txt` (File), `baz` (Directory) in order. -/
theorem lister_filter_and_parse (out : String) :
    List.Sublist (listRemoteLines out) (pySplitlines out)
    ∧ ((listRemoteLines out).all (fun x => !(isBlankLine x))) = true
    ∧ (∀ line : String, (parseEntry line).kind = Kind.Directory ↔ endsWithSlash line = true)
    ∧ (∀ line : String, endsWithSlash line = true →
        (parseEntry line).name = String.mk line.data.dropLast)
    ∧ (∀ line : String, endsWithSlash line = false → (parseEntry line).name = line)
    ∧ listerEntries "foo/\nbar.txt\n\nbaz/\n"
        = [⟨"foo", Kind.Directory⟩, ⟨"bar.txt", Kind.File⟩, ⟨"baz", Kind.Directory⟩] := by
  refine ⟨List.filter_sublist _, ?_, ?_, ?_, ?_, by decide⟩
  · rw [List.all_eq_true]
    intro x hx
    exact (List.mem_filter.mp hx).2
  · intro line
    unfold parseEntry
    by_cases h : endsWithSlash line = true <;> simp [h]
  · intro line h
    unfold parseEntry
    rw [if_pos h]
  · intro line h
    unfold parseEntry
    rw [if_neg (by simp [h])]

/-- Witness for C4 at concrete lines. -/
theorem lister_filter_and_parse_witness :
    (parseEntry "foo/").name = "foo" ∧ (parseEntry "bar.txt").name = "bar.txt" := by
  constructor
  · have h := (lister_filter_and_parse "").2.2.2.1 "foo/" (by decide)
    simpa using h
  · exact (lister_filter_and_parse "").2.2.2.2.1 "bar.txt" (by decide)

/-- Counterexample to the literal reading of claim C6: a single output line
is not returned verbatim as the selection — the adapter strips surrounding
whitespace from it. -/
theorem fzf_decode_counterexample :
    pickDecodeLines [" a "] ≠ ("", " a ") ∧ pickDecodeLines [" a "] = ("", "a") := by
  decide

/-- Claim C6 (amended): zero output lines decode to no selection; exactly
one line decodes to that line, with surrounding whitespace stripped, as the
selection under the plain modifier; with two or more lines the first
(stripped) is the modifier indicator, the second (stripped) the selection,
and every further line is ignored. -/
theorem fzf_decode_rule (m s l : String) (rest rest2 : List String) :
    pickDecodeLines [] = ("", "")
    ∧ pickDecodeLines [l] = ("", pyStrip l)
    ∧ pickDecodeLines (m :: s :: rest) = (pyStrip m, pyStrip s)
    ∧ pickDecodeLines (m :: s :: rest) = pickDecodeLines (m :: s :: rest2) := by
  exact ⟨rfl, rfl, rfl, rfl⟩

/-- Claim C7: for `n` listed entries the candidate list has exactly `n + 1`
lines, the parent marker is first, the entries follow in order rendered
with a trailing separator iff they are directories, and the raw candidate
list of `main` coincides with this rendering of the parsed entries. -/
theorem picker_candidates (entries : List RemoteEntry) :
    (candidateLines (entries.map renderEntry)).length = entries.length + 1
    ∧ (candidateLines (entries.map renderEntry)).head? = some "../\n"
    ∧ candidateLines (entries.map renderEntry)
        = "../\n" :: entries.map (fun e => renderEntry e ++ "\n")
    ∧ ∀ items : List String,
        candidateLines items = candidateLines ((items.map parseEntry).map renderEntry) := by
  refine ⟨by simp [candidateLines], by simp [candidateLines], by simp [candidateLines], ?_⟩
  intro items
  have hmap : (items.map parseEntry).map renderEntry = items := by
    induction items with
    | nil => rfl
    | cons a t ih => simp [ih, renderEntry_parseEntry]
  rw [hmap]

/-- Claim C8: zero picker output lines decode to an empty selection, and
the loop then prints the cancellation notice and terminates with outcome
`NoSelection` and exit status `0`. -/
theorem cancel_terminates_noSelection (cur : String) :
    pickDecodeLines [] = ("", "")
    ∧ navStep cur (pick_with_fzf_decode "").1 (pick_with_fzf_decode "").2
        = NavResult.terminated ["No selection, exiting."] Outcome.noSelection 0 := by
  exact ⟨rfl, rfl⟩

theorem ne_append_colon (h p : String) : ("-r" : String) ≠ h ++ ":" ++ p := by
  intro e
  have hm : ':' ∈ (h ++ ":" ++ p).data := by
    rw [data_append, data_append]
    simp [show (":" : String).data = [':'] from rfl]
  rw [← e] at hm
  simp at hm

theorem ne_append_slash (d : String) : ("-r" : String) ≠ d ++ "/" := by
  intro e
  have hm : (d ++ "/").data.getLast? = some '/' := by
    rw [data_append]
    exact List.getLast?_concat _
  rw [← e] at hm
  simp at hm

/-- Claim C9: with the mirroring-sync strategy the dispatched actions are
identical for files and directories; with plain secure copy the recursive
flag appears iff the request is a directory and the
modification-time-preserving flag always appears; and either strategy
first ensures the local destination exists, then performs exactly one
external invocation. -/
theorem transfer_dispatch_shape (h p d : String) :
    download h true p d true = download h true p d false
    ∧ (∀ i : Bool, ∃ c : List String,
        download h false p d i = [Action.makedirs d, Action.callArgs c]
          ∧ (("-r" : String) ∈ c ↔ i = true) ∧ ("-p" : String) ∈ c)
    ∧ (∀ u i : Bool, ∃ c : List String,
        download h u p d i = [Action.makedirs d, Action.callArgs c]) := by
  refine ⟨rfl, ?_, ?_⟩
  · intro i
    cases i
    · refine ⟨["scp", "-p", h ++ ":" ++ p, d ++ "/"], rfl, ?_, by simp⟩
      simp only [List.mem_cons, List.not_mem_nil, or_false]
      constructor
      · rintro (e | e | e | e)
        · exact absurd e (by decide)
        · exact absurd e (by decide)
        · exact absurd e (ne_append_colon h p)
        · exact absurd e (ne_append_slash d)
      · intro e
        exact absurd e (by decide)
    · exact ⟨["scp", "-r", "-p", h ++ ":" ++ p, d ++ "/"], rfl, by simp, by simp⟩
  · intro u i
    cases u <;> cases i <;> exact ⟨_, rfl⟩

/-- Claim C10: a pick of the parent marker always ascends (or stays at the
root), whatever the modifier: even under the alternate-confirm chord it
never terminates with a directory download, because the parent-marker
branch precedes the trailing-separator branch, although `"../"` itself
carries the trailing separator. -/
theorem parent_marker_precedence (cur key : String) :
    endsWithSlash "../" = true
    ∧ navStep cur key "../"
        = (if cur = "/" then NavResult.browsing cur else NavResult.browsing (pyParent cur))
    ∧ ∀ (msgs : List String) (p : String) (code : Nat),
        navStep cur key "../" ≠ NavResult.terminated msgs (Outcome.directoryDownloadRequested p) code := by
  refine ⟨by decide, ?_, ?_⟩
  · by_cases hc : cur = "/" <;> simp [navStep, hc]
  · intro msgs p code
    by_cases hc : cur = "/" <;> simp [navStep, hc]

/-! ### Claims about the navigation state machine -/

/-- Claim C1: with a selection other than the parent marker, a directory
selection (trailing separator) under the alternate-confirm chord terminates
the session with a directory-download outcome for the composed child path;
under any other modifier it descends into that child and keeps browsing; a
non-empty file selection terminates with a file-download outcome for the
composed path, regardless of the modifier. -/
theorem nav_select_transitions (cur key sel : String) :
    (endsWithSlash sel = true → sel ≠ "../" →
      navStep cur "ctrl-d" sel
        = NavResult.terminated
            ["⬇ Downloading directory: " ++ pyJoin cur (String.mk sel.data.dropLast), "✅ Done."]
            (Outcome.directoryDownloadRequested (pyJoin cur (String.mk sel.data.dropLast))) 0)
    ∧ (endsWithSlash sel = true → sel ≠ "../" → key ≠ "ctrl-d" →
      navStep cur key sel = NavResult.browsing (pyJoin cur (String.mk sel.data.dropLast)))
    ∧ (endsWithSlash sel = false → sel ≠ "" →
      navStep cur key sel
        = NavResult.terminated ["⬇ Downloading file: " ++ pyJoin cur sel, "✅ Done."]
            (Outcome.fileDownloadRequested (pyJoin cur sel)) 0) := by
  refine ⟨?_, ?_, ?_⟩
  · intro h1 h2
    simp [navStep, endsWithSlash_ne_empty h1, h2, h1]
  · intro h1 h2 h3
    simp [navStep, endsWithSlash_ne_empty h1, h2, h1, h3]
  · intro h1 h2
    have h3 : sel ≠ "../" := by
      intro e
      rw [e] at h1
      exact absurd h1 (by decide)
    simp [navStep, h2, h3, h1]

/-- Witness for C1, including the two concrete picks of the spec. -/
theorem nav_select_transitions_witness :
    navStep "/root" "ctrl-d" "games/"
      = NavResult.terminated ["⬇ Downloading directory: /root/games", "✅ Done."]
          (Outcome.directoryDownloadRequested "/root/games") 0
    ∧ navStep "/root" "" "games/" = NavResult.browsing "/root/games"
    ∧ navStep "/root" "" "save.bin"
      = NavResult.terminated ["⬇ Downloading file: /root/save.bin", "✅ Done."]
          (Outcome.fileDownloadRequested "/root/save.bin") 0
    ∧ pick_with_fzf_decode "ctrl-d\ngames/\n" = ("ctrl-d", "games/")
    ∧ pick_with_fzf_decode "\nsave.bin\n" = ("", "save.bin") := by
  refine ⟨?_, ?_, ?_, by decide, by decide⟩
  · have h := (nav_select_transitions "/root" "ctrl-d" "games/").1 (by decide) (by decide)
    have e : pyJoin "/root" (String.mk ("games/" : String).data.dropLast) = "/root/games" := by
      decide
    rw [e] at h
    exact h
  · have h := (nav_select_transitions "/root" "" "games/").2.1 (by decide) (by decide) (by decide)
    have e : pyJoin "/root" (String.mk ("games/" : String).data.dropLast) = "/root/games" := by
      decide
    rw [e] at h
    exact h
  · have h := (nav_select_transitions "/root" "" "save.bin").2.2 (by decide) (by decide)
    have e : pyJoin "/root" "save.bin" = "/root/save.bin" := by decide
    rw [e] at h
    exact h

/-- Claim C2: starting from an absolute remote root, every reachable
browsing state has an absolute current directory; picking the synthetic
parent marker keeps the session browsing, in the parent directory unless
the current directory is the filesystem root, which is left unchanged. -/
theorem browsing_absolute_and_parent_noop (root cur key : String)
    (hroot : pyIsAbsL root.data = true) (hreach : Reachable root cur) :
    pyIsAbsL cur.data = true
    ∧ (cur ≠ "/" → navStep cur key "../" = NavResult.browsing (pyParent cur))
    ∧ (cur = "/" → navStep cur key "../" = NavResult.browsing cur) := by
  have habs : pyIsAbsL cur.data = true := by
    induction hreach with
    | start => exact hroot
    | step key choice hr hstep ih => exact navStep_abs ih hstep
  refine ⟨habs, ?_, ?_⟩
  · intro hc
    simp [navStep, show ("../" : String) ≠ "" from by decide, hc]
  · intro hc
    simp [navStep, show ("../" : String) ≠ "" from by decide, hc]

/-- Witness for C2 at the default remote root. -/
theorem browsing_absolute_and_parent_noop_witness :
    pyIsAbsL ("/mnt/media1/Games" : String).data = true
    ∧ navStep "/mnt/media1/Games" "" "../" = NavResult.browsing "/mnt/media1"
    ∧ navStep "/" "" "../" = NavResult.browsing "/" := by
  refine ⟨?_, ?_, ?_⟩
  · exact (browsing_absolute_and_parent_noop "/mnt/media1/Games" "/mnt/media1/Games" ""
      (by decide) Reachable.start).1
  · have h := (browsing_absolute_and_parent_noop "/mnt/media1/Games" "/mnt/media1/Games" ""
      (by decide) Reachable.start).2.1 (by decide)
    have e : pyParent "/mnt/media1/Games" = "/mnt/media1" := by decide
    rw [e] at h
    exact h
  · exact (browsing_absolute_and_parent_noop "/" "/" "" (by decide) Reachable.start).2.2 rfl

/-! ### Path-parts machinery for the round-trip claim -/

theorem splitOnSlash_cons_slash (cs : List Char) :
    splitOnSlash ('/' :: cs) = [] :: splitOnSlash cs := by
  simp [splitOnSlash]

theorem splitOnSlash_cons_other {c : Char} (cs : List Char) (hc : ¬ c = '/') :
    splitOnSlash (c :: cs)
      = match splitOnSlash cs with
        | [] => [[c]]
        | p :: ps => (c :: p) :: ps := by
  simp [splitOnSlash, hc]

theorem splitOnSlash_ne_nil (l : List Char) : splitOnSlash l ≠ [] := by
  cases l with
  | nil => simp [splitOnSlash]
  | cons c cs =>
    by_cases hc : c = '/'
    · simp [splitOnSlash, hc]
    · cases h : splitOnSlash cs <;> simp [splitOnSlash, hc, h]

theorem slash_not_mem_of_mem_splitOnSlash :
    ∀ {l p : List Char}, p ∈ splitOnSlash l → '/' ∉ p := by
  intro l
  induction l with
  | nil =>
    intro p hp
    simp [splitOnSlash] at hp
    subst hp
    simp
  | cons c cs ih =>
    intro p hp
    by_cases hc : c = '/'
    · subst hc
      rw [splitOnSlash_cons_slash] at hp
      rcases List.mem_cons.mp hp with h | h
      · subst h; simp
      · exact ih h
    · rw [splitOnSlash_cons_other cs hc] at hp
      cases hspl : splitOnSlash cs with
      | nil => exact absurd hspl (splitOnSlash_ne_nil cs)
      | cons q qs =>
        rw [hspl] at hp
        rcases List.mem_cons.mp hp with h | h
        · subst h
          intro hmem
          rcases List.mem_cons.mp hmem with h | h
          · exact hc h.symm
          · exact ih (hspl ▸ List.mem_cons_self q qs) h
        · exact ih (hspl ▸ List.mem_cons_of_mem q h)

theorem splitOnSlash_of_not_mem : ∀ {l : List Char}, '/' ∉ l → splitOnSlash l = [l] := by
  intro l
  induction l with
  | nil => intro _; rfl
  | cons c cs ih =>
    intro h
    have hc : ¬ c = '/' := fun e => h (by simp [e])
    have hcs : '/' ∉ cs := fun m => h (List.mem_cons_of_mem _ m)
    rw [splitOnSlash_cons_other cs hc, ih hcs]

theorem splitOnSlash_append (rest : List Char) :
    ∀ p : List Char, '/' ∉ p → splitOnSlash (p ++ '/' :: rest) = p :: splitOnSlash rest := by
  intro p
  induction p with
  | nil =>
    intro _
    simp [splitOnSlash_cons_slash]
  | cons c cs ih =>
    intro hp
    have hc : ¬ c = '/' := fun e => hp (by simp [e])
    have hcs : '/' ∉ cs := fun m => hp (List.mem_cons_of_mem _ m)
    rw [List.cons_append, splitOnSlash_cons_other _ hc, ih hcs]

theorem splitOnSlash_joinSlash :
    ∀ ps : List (List Char), ps ≠ [] → (∀ p ∈ ps, '/' ∉ p) →
      splitOnSlash (joinSlash ps) = ps := by
  intro ps
  induction ps with
  | nil => intro h _; exact absurd rfl h
  | cons p qs ih =>
    intro _ hcl
    cases qs with
    | nil =>
      show splitOnSlash (joinSlash [p]) = [p]
      rw [show joinSlash [p] = p from rfl]
      exact splitOnSlash_of_not_mem (hcl p (by simp))
    | cons q rs =>
      rw [show joinSlash (p :: q :: rs) = p ++ '/' :: joinSlash (q :: rs) from rfl,
        splitOnSlash_append _ p (hcl p (by simp)),
        ih (by simp) (fun x hx => hcl x (List.mem_cons_of_mem _ hx))]

theorem keepPart_eq_true {p : List Char} : keepPart p = true ↔ p ≠ [] ∧ p ≠ ['.'] := by
  simp [keepPart]

theorem pyPartsL_clean {l p : List Char} (h : p ∈ pyPartsL l) :
    p ≠ [] ∧ p ≠ ['.'] ∧ '/' ∉ p := by
  have hm := List.mem_filter.mp h
  have hk := keepPart_eq_true.mp hm.2
  exact ⟨hk.1, hk.2, slash_not_mem_of_mem_splitOnSlash hm.1⟩

theorem pyPartsL_reprL {ps : List (List Char)}
    (h : ∀ p ∈ ps, p ≠ [] ∧ p ≠ ['.'] ∧ '/' ∉ p) :
    pyPartsL (pyReprL true ps) = ps := by
  have hrepr : pyReprL true ps = '/' :: joinSlash ps := by simp [pyReprL]
  rw [hrepr]
  unfold pyPartsL
  rw [splitOnSlash_cons_slash, List.filter_cons]
  rw [show keepPart ([] : List Char) = false from rfl]
  simp only [Bool.false_eq_true, if_false]
  cases hps : ps with
  | nil => rfl
  | cons q rs =>
    rw [← hps, splitOnSlash_joinSlash ps (by simp [hps]) (fun x hx => (h x hx).2.2)]
    exact List.filter_eq_self.mpr
      (fun a ha => keepPart_eq_true.mpr ⟨(h a ha).1, (h a ha).2.1⟩)

theorem joinSlash_concat_ne_nil {ps : List (List Char)} {n : List Char} (hn : n ≠ []) :
    joinSlash (ps ++ [n]) ≠ [] := by
  cases ps with
  | nil => simpa [joinSlash] using hn
  | cons q qs =>
    cases qs with
    | nil => simp [joinSlash]
    | cons r rs => simp [joinSlash]

theorem pyJoin_clean {cur name : String}
    (habs : pyIsAbsL cur.data = true)
    (hname : pyPartsL name.data = [name.data]) :
    pyJoin cur name = String.mk (pyReprL true (pyPartsL cur.data ++ [name.data])) := by
  have hclean : name.data ≠ [] ∧ name.data ≠ ['.'] ∧ '/' ∉ name.data :=
    pyPartsL_clean (l := name.data) (by rw [hname]; exact List.mem_singleton_self _)
  have hnabs : pyIsAbsL name.data = false := by
    cases hd : name.data with
    | nil => rfl
    | cons c cs =>
      have hc : c ≠ '/' := by
        intro e
        exact hclean.2.2 (by rw [hd, e]; simp)
      simp [pyIsAbsL, hc]
  unfold pyJoin
  rw [hnabs]
  simp only [Bool.false_eq_true, if_false]
  rw [habs, hname]

theorem pyParent_pyJoin_component {cur name : String}
    (habs : pyIsAbsL cur.data = true) (hnorm : pyNorm cur = cur)
    (hname : pyPartsL name.data = [name.data]) :
    pyParent (pyJoin cur name) = cur := by
  have hclean : name.data ≠ [] ∧ name.data ≠ ['.'] ∧ '/' ∉ name.data :=
    pyPartsL_clean (l := name.data) (by rw [hname]; exact List.mem_singleton_self _)
  have hcleanAll : ∀ p ∈ pyPartsL cur.data ++ [name.data], p ≠ [] ∧ p ≠ ['.'] ∧ '/' ∉ p := by
    intro p hp
    rcases List.mem_append.mp hp with h | h
    · exact pyPartsL_clean h
    · rw [List.mem_singleton.mp h]
      exact hclean
  rw [pyJoin_clean habs hname]
  unfold pyParent
  rw [data_mk, pyIsAbsL_reprL, pyPartsL_reprL hcleanAll, List.dropLast_concat]
  have hn : pyNorm cur = String.mk (pyReprL true (pyPartsL cur.data)) := by
    unfold pyNorm
    rw [habs]
  rw [← hn, hnorm]

/-- Counterexample to claim C3 as literally stated: the absolute (but not
normalized) current directory `"/a/"` is not restored by descending into
`b` and selecting the parent marker — the round trip ends at `"/a"`. -/
theorem roundTrip_counterexample :
    pyIsAbsL ("/a/" : String).data = true
    ∧ pyPartsL ("b" : String).data = [("b" : String).data]
    ∧ navStep "/a/" "" "b/" = NavResult.browsing "/a/b"
    ∧ navStep "/a/b" "" "../" = NavResult.browsing "/a"
    ∧ ("/a" : String) ≠ "/a/" := by decide

/-- Claim C3 (amended): for every absolute current directory in canonical
form (equal to its own path normalization) and every entry name that is a
single path component other than the parent component, the descend
transition (plain confirm on the rendered directory line) followed by the
parent-marker transition returns the current directory to its prior
value. -/
theorem descend_then_parent_roundTrip (cur name key : String)
    (habs : pyIsAbsL cur.data = true)
    (hnorm : pyNorm cur = cur)
    (hname : pyPartsL name.data = [name.data])
    (hdd : name ≠ "..") :
    navStep cur "" (name ++ "/") = NavResult.browsing (pyJoin cur name)
    ∧ navStep (pyJoin cur name) key "../" = NavResult.browsing cur := by
  have hclean : name.data ≠ [] ∧ name.data ≠ ['.'] ∧ '/' ∉ name.data :=
    pyPartsL_clean (l := name.data) (by rw [hname]; exact List.mem_singleton_self _)
  have hdata : (name ++ "/").data = name.data ++ ['/'] := by
    rw [data_append]
  have hne : name ++ "/" ≠ "" := by
    intro e
    have h2 := congrArg String.data e
    rw [hdata] at h2
    simp at h2
  have hnotpm : name ++ "/" ≠ "../" := by
    intro e
    have h2 := congrArg String.data e
    rw [hdata] at h2
    have h3 : name.data ++ ['/'] = ['.', '.'] ++ ['/'] := by simpa using h2
    have h4 := congrArg List.dropLast h3
    simp only [List.dropLast_concat] at h4
    exact hdd (by rw [← mk_data name, h4])
  have hends : endsWithSlash (name ++ "/") = true := by
    simp [endsWithSlash, hdata, List.getLast?_concat]
  have hstrip : String.mk (name ++ "/").data.dropLast = name := by
    rw [hdata, List.dropLast_concat, mk_data]
  constructor
  · simp [navStep, hne, hnotpm, hends, hstrip,
      show ("" : String) ≠ "ctrl-d" from by decide]
  · have hroot : pyJoin cur name ≠ "/" := by
      rw [pyJoin_clean habs hname]
      intro e
      have h2 := congrArg String.data e
      rw [data_mk] at h2
      have h3 : pyReprL true (pyPartsL cur.data ++ [name.data])
          = '/' :: joinSlash (pyPartsL cur.data ++ [name.data]) := by simp [pyReprL]
      rw [h3] at h2
      have h4 : joinSlash (pyPartsL cur.data ++ [name.data]) = [] := by
        have := h2
        simp only [show ("/" : String).data = ['/'] from rfl] at this
        exact List.cons.inj this |>.2
      exact joinSlash_concat_ne_nil hclean.1 h4
    simp [navStep, show ("../" : String) ≠ "" from by decide, hroot,
      pyParent_pyJoin_component habs hnorm hname]

/-- Witness for the amended C3 at a concrete directory and entry. -/
theorem descend_then_parent_roundTrip_witness :
    navStep "/mnt/media1/Games" "" "Zelda/" = NavResult.browsing "/mnt/media1/Games/Zelda"
    ∧ navStep "/mnt/media1/Games/Zelda" "x" "../" = NavResult.browsing "/mnt/media1/Games" := by
  have h := descend_then_parent_roundTrip "/mnt/media1/Games" "Zelda" "x"
    (by decide) (by decide) (by decide) (by decide)
  have e1 : ("Zelda" ++ "/" : String) = "Zelda/" := by decide
  have e2 : pyJoin "/mnt/media1/Games" "Zelda" = "/mnt/media1/Games/Zelda" := by decide
  rw [e1, e2] at h
  exact h

/-! ### Remote-shell word splitting of the listing command -/

theorem shlexSafeChar_facts {c : Char} (h : shlexSafeChar c = true) :
    c.toNat ≠ 32 ∧ c.toNat ≠ 9 ∧ c.toNat ≠ 39 ∧ c.toNat ≠ 34 := by
  unfold shlexSafeChar at h
  simp only [Bool.or_eq_true, decide_eq_true_eq] at h
  refine ⟨by omega, by omega, by omega, by omega⟩

theorem shSplit_norm_cons (c : Char) (rest cur : List Char) (st : Bool) :
    shSplit (c :: rest) ShMode.norm cur st
      = if decide (c.toNat = 32) || decide (c.toNat = 9) then
          (if st then [cur.reverse] else []) ++ shSplit rest ShMode.norm [] false
        else if decide (c.toNat = 39) then shSplit rest ShMode.squote cur true
        else if decide (c.toNat = 34) then shSplit rest ShMode.dquote cur true
        else shSplit rest ShMode.norm (c :: cur) true := by
  rfl

theorem shSplit_word :
    ∀ l : List Char, (∀ c ∈ l, c.toNat ≠ 32 ∧ c.toNat ≠ 9 ∧ c.toNat ≠ 39 ∧ c.toNat ≠ 34) →
      ∀ (rest cur : List Char) (st : Bool),
        shSplit (l ++ rest) ShMode.norm cur st
          = shSplit rest ShMode.norm (l.reverse ++ cur) (st || !l.isEmpty) := by
  intro l
  induction l with
  | nil =>
    intro _ rest cur st
    simp
  | cons c cs ih =>
    intro hcl rest cur st
    have hc := hcl c (by simp)
    have e1 : (decide (c.toNat = 32) || decide (c.toNat = 9)) = false := by
      simp [hc.1, hc.2.1]
    have e2 : decide (c.toNat = 39) = false := by simp [hc.2.2.1]
    have e3 : decide (c.toNat = 34) = false := by simp [hc.2.2.2]
    rw [List.cons_append, shSplit_norm_cons]
    simp only [e1, e2, e3, Bool.false_eq_true, if_false]
    rw [ih (fun x hx => hcl x (List.mem_cons_of_mem _ hx)) rest (c :: cur) true]
    simp [List.append_assoc]

/-- Counterexample to claim C5: the directory path is interpolated into the
remote command without remote-shell quoting, so a path containing a space
is word-split by the remote shell instead of being one literal argument. -/
theorem remote_quoting_counterexample :
    shellFields (remoteListingShellCommand "/mnt/my dir")
        = ["cd", "/mnt/my", "dir", "&&", "ls", "-1p"]
    ∧ shellFields (remoteListingShellCommand "/mnt/my dir")
        ≠ ["cd", "/mnt/my dir", "&&", "ls", "-1p"] := by decide

/-- Claim C5 (amended): `shlex.quote` protects the local shell layer only
(the host and the whole remote command string); the directory path itself
is not quoted for the remote shell, so it reaches `cd` as a single literal
argument only when it is non-empty and made of shell-safe characters (as
the default configuration's paths are) — not for every path. -/
theorem remote_listing_safe_path_single_argument (d : String)
    (hne : d ≠ "") (hsafe : d.data.all shlexSafeChar = true) :
    shellFields (remoteListingShellCommand d) = ["cd", d, "&&", "ls", "-1p"] := by
  have hword : ∀ c ∈ d.data, c.toNat ≠ 32 ∧ c.toNat ≠ 9 ∧ c.toNat ≠ 39 ∧ c.toNat ≠ 34 :=
    fun c hc => shlexSafeChar_facts (List.all_eq_true.mp hsafe c hc)
  have hdd : d.data ≠ [] := by
    intro e
    exact hne (by rw [← mk_data d, e])
  have hdata : (remoteListingShellCommand d).data
      = ['c', 'd'] ++ (' ' :: (d.data ++ (' ' :: ("&& ls -1p" : String).data))) := by
    unfold remoteListingShellCommand
    rw [data_append, data_append]
    show ['c', 'd', ' '] ++ d.data ++ (' ' :: ("&& ls -1p" : String).data) = _
    rw [List.append_assoc]
    rfl
  unfold shellFields
  rw [hdata, shSplit_word ['c', 'd'] (by decide)]
  rw [shSplit_norm_cons]
  simp only [show (decide ((' ' : Char).toNat = 32) || decide ((' ' : Char).toNat = 9)) = true
    from rfl, if_true, Bool.or_true, if_pos rfl]
  rw [shSplit_word d.data hword]
  have hstarted : (false || !d.data.isEmpty) = true := by
    cases hd : d.data with
    | nil => exact absurd hd hdd
    | cons x xs => simp [hd]
  rw [hstarted, shSplit_norm_cons]
  simp only [show (decide ((' ' : Char).toNat = 32) || decide ((' ' : Char).toNat = 9)) = true
    from rfl, if_true, if_pos rfl]
  rw [show shSplit ("&& ls -1p" : String).data ShMode.norm [] false
      = [['&', '&'], ['l', 's'], ['-', '1', 'p']] from by decide]
  simp only [List.append_nil, List.reverse_reverse, List.map, List.map_append, List.map_cons]

/-- Witness for the amended C5 at the default remote root. -/
theorem remote_listing_safe_path_single_argument_witness :
    shellFields (remoteListingShellCommand "/mnt/media1/Games")
      = ["cd", "/mnt/media1/Games", "&&", "ls", "-1p"] :=
  remote_listing_safe_path_single_argument "/mnt/media1/Games" (by decide) (by decide)

end NasPick
